import Mathlib

/-!
Verification of the robot/platform tick scheduler in
`src/solution/robot_scheduler.py`.

The Python program is embedded shallowly: machine ints become `Int`,
Python `deque`/`list` become `List`, the platform dictionary becomes an
association list, and every operation that can raise an exception
(`IndexError` on `robots[i]` / `path[0]` / `popleft` on an empty deque,
`KeyError` on the platform map, `ValueError` in `action`) returns
`Option`/`none`.
-/

namespace RobotSim

/-- Robot kind: the two concrete subclasses `Organizer` and `Mover`. -/
inductive Kind
  | organizer
  | mover
deriving DecidableEq, Repr

/-- Robot state: the integers 1 (working), 2 (waiting), 3 (moving) used by the code. -/
inductive RState
  | working
  | waiting
  | moving
deriving DecidableEq, Repr

/-- Platform state: the integers 1 (busy), 2 (free) used by the code. -/
inductive PState
  | busy
  | free
deriving DecidableEq, Repr

/-- The `Robot` class: id, type, velocity, state, path, time_left, time_spend. -/
structure Robot where
  robot_id : Int
  kind : Kind
  velocity : Int
  state : RState
  path : List Int
  time_left : Int
  time_spend : Int
deriving DecidableEq, Repr

/-- The `Platform` class. -/
structure Platform where
  platform_id : Int
  node_type : String
  state : PState
  time_left : Int
  cur_visitor : List Int
  visitor : List Int
deriving DecidableEq, Repr

/-- `Organizer.action`: 30 on node type A, 45 on B, `ValueError` otherwise. -/
def organizerAction (node_type : String) : Option Int :=
  if node_type = "A" then some 30
  else if node_type = "B" then some 45
  else none

/-- `Mover.action`: 20 on node type A, 35 on B, `ValueError` otherwise. -/
def moverAction (node_type : String) : Option Int :=
  if node_type = "A" then some 20
  else if node_type = "B" then some 35
  else none

/-- Dynamic dispatch of `robot.action` on the robot's class. -/
def Robot.action (r : Robot) (node_type : String) : Option Int :=
  match r.kind with
  | .organizer => organizerAction node_type
  | .mover => moverAction node_type

/-- The scheduler's `platform_map` dictionary (keys are platform ids). -/
abbrev PMap := List (Int × Platform)

/-- Dictionary lookup `platform_map[pid]`; `none` models `KeyError`. -/
def lookupP : PMap → Int → Option Platform
  | [], _ => none
  | (k, q) :: rest, pid => if k = pid then some q else lookupP rest pid

/-- In-place mutation of the platform object stored under key `pid`. -/
def updateP : PMap → Int → Platform → PMap
  | [], _, _ => []
  | (k, q) :: rest, pid, p =>
    if k = pid then (k, p) :: rest else (k, q) :: updateP rest pid p

/-- The body of the per-robot loop in `RobotScheduler.run` for one robot:
skip when the path is empty, otherwise increment `time_spend` and either
keep counting down (`time_left > 0`) or fire the state transition.
`none` models an uncaught exception. -/
def evalRobot (pm : PMap) (r0 : Robot) : Option (PMap × Robot) :=
  match r0.path with
  | [] => some (pm, r0)
  | pid :: rest =>
    let r : Robot := {r0 with time_spend := r0.time_spend + 1}
    if r.time_left > 0 then
      match r.state with
      | .working =>
        match lookupP pm pid with
        | none => none
        | some p =>
          some (updateP pm pid {p with time_left := p.time_left - 1},
                {r with time_left := r.time_left - 1})
      | .waiting => some (pm, {r with time_left := r.time_left - 1})
      | .moving => some (pm, {r with time_left := r.time_left - 1})
    else
      match r.state with
      | .working =>
        match lookupP pm pid with
        | none => none
        | some p =>
          match p.cur_visitor with
          | [] => none
          | _ :: vs =>
            let p1 : Platform :=
              if vs ≠ [] then
                {p with cur_visitor := vs, time_left := p.time_left - 1}
              else
                {p with cur_visitor := [], state := PState.free, time_left := 0}
            some (updateP pm pid p1,
                  {r with state := RState.moving, time_left := r.velocity - 1,
                          path := rest})
      | .waiting =>
        match lookupP pm pid with
        | none => none
        | some p =>
          match r.action p.node_type with
          | none => none
          | some d =>
            some (pm, {r with state := RState.working, time_left := d - 1})
      | .moving =>
        match lookupP pm pid with
        | none => none
        | some p =>
          let p1 : Platform := {p with cur_visitor := p.cur_visitor ++ [r.robot_id]}
          let p2 : Platform :=
            if p1.visitor.getLast? = some r.robot_id then p1
            else {p1 with visitor := p1.visitor ++ [r.robot_id]}
          match p2.state with
          | .busy =>
            match r.action p2.node_type with
            | none => none
            | some d =>
              some (updateP pm pid {p2 with time_left := p2.time_left + d},
                    {r with state := RState.waiting, time_left := p2.time_left})
          | .free =>
            match r.action p2.node_type with
            | none => none
            | some d =>
              some (updateP pm pid
                      {p2 with state := PState.busy, time_left := d - 1},
                    {r with state := RState.working, time_left := d - 1})

instance : Inhabited Robot :=
  ⟨⟨0, Kind.organizer, 0, RState.moving, [], 0, 0⟩⟩

/-- Sort key used by `sorted(self.robots, key = lambda r : r.state)`. -/
def stateKey : RState → Nat
  | .working => 1
  | .waiting => 2
  | .moving => 3

/-- Stable insertion of an index into an already key-sorted index list:
the new index goes before the first index of key ≥ its own. -/
def insertStable (key : Nat → Nat) (i : Nat) : List Nat → List Nat
  | [] => [i]
  | j :: js => if key j < key i then j :: insertStable key i js else i :: j :: js

/-- Stable sort of an index list by key, modelling Python's stable `sorted`. -/
def sortIdx (key : Nat → Nat) : List Nat → List Nat
  | [] => []
  | i :: is => insertStable key i (sortIdx key is)

/-- The sort key of robot `i` of the scheduler's robot list. -/
def robotKey (robots : List Robot) (i : Nat) : Nat :=
  stateKey ((robots.getD i default).state)

/-- The mutable scheduler state: `self.robots`, `self.platform_map`, `self.times`. -/
structure State where
  robots : List Robot
  platform_map : PMap
  times : Int
deriving DecidableEq, Repr

/-- The per-tick pass over the robots in the given evaluation order,
threading the platform map and the `flag` variable. -/
def passGo : List Robot → PMap → Bool → List Nat → Option (List Robot × PMap × Bool)
  | robots, pm, flag, [] => some (robots, pm, flag)
  | robots, pm, flag, i :: rest =>
    let r := robots.getD i default
    let flag1 := flag || decide (r.path ≠ [])
    match evalRobot pm r with
    | none => none
    | some (pm1, r1) => passGo (robots.set i r1) pm1 flag1 rest

/-- One iteration of the `while` loop of `RobotScheduler.run`: increment
`self.times`, then run the pass over the robots sorted stably by state;
the returned `Bool` is the final value of `flag`. -/
def tick (s : State) : Option (State × Bool) :=
  let s1 : State := {s with times := s.times + 1}
  match passGo s1.robots s1.platform_map false
      (sortIdx (robotKey s1.robots) (List.range s1.robots.length)) with
  | none => none
  | some (rl, pm, flag) =>
    some ({robots := rl, platform_map := pm, times := s1.times}, flag)

/-- Outcome of running the scheduler loop with bounded fuel. -/
inductive RunRes
  | out (s : State)
  | exn
  | fuel
deriving DecidableEq, Repr

/-- `RobotScheduler.run`: repeat `tick` while `flag` is true.  `exn` models
an uncaught exception, `fuel` is exhaustion of the fuel bound. -/
def runFuel : Nat → State → RunRes
  | 0, _ => .fuel
  | n + 1, s =>
    match tick s with
    | none => .exn
    | some (s1, flag) => if flag then runFuel n s1 else .out s1

/-- Iterate `tick` a fixed number of times (ignoring the flag). -/
def tickN : Nat → State → Option State
  | 0, s => some s
  | n + 1, s =>
    match tick s with
    | none => none
    | some (s1, _) => tickN n s1

/-- Python list indexing `robots[i]`; `none` models `IndexError`. -/
def pyIndex : List Robot → Nat → Option Robot
  | [], _ => none
  | r :: _, 0 => some r
  | _ :: rest, n + 1 => pyIndex rest n

/-- The reorder `[robots[i] for i in [0, 2, 1, 3]]` at the top of
`RobotScheduler.__init__`; `none` models the `IndexError` raised when the
list has fewer than four elements. -/
def reorder (robots : List Robot) : Option (List Robot) :=
  match pyIndex robots 0, pyIndex robots 2, pyIndex robots 1, pyIndex robots 3 with
  | some a, some c, some b, some d => some [a, c, b, d]
  | _, _, _, _ => none

/-- The per-robot initialization loop of `RobotScheduler.__init__`:
`robot.path[0]` on an empty path raises (`none`), missing platform key
raises, invalid node type raises; otherwise the robot starts Working,
the platform becomes Busy with `time_left` overwritten to this robot's
duration, and the robot id is appended to both visitor structures. -/
def initLoop : PMap → List Robot → Option (List Robot × PMap)
  | pm, [] => some ([], pm)
  | pm, r :: rest =>
    match r.path with
    | [] => none
    | pid :: _ =>
      match lookupP pm pid with
      | none => none
      | some p =>
        match r.action p.node_type with
        | none => none
        | some d =>
          let r1 : Robot := {r with state := RState.working, time_left := d}
          let p1 : Platform :=
            {p with state := PState.busy, time_left := d,
                    cur_visitor := p.cur_visitor ++ [r.robot_id],
                    visitor := p.visitor ++ [r.robot_id]}
          match initLoop (updateP pm pid p1) rest with
          | none => none
          | some (rl, pm1) => some (r1 :: rl, pm1)

/-- `RobotScheduler.__init__`: reorder the robots, set `times = 0`, and run
the per-robot initialization loop. -/
def schedulerInit (robots : List Robot) (pm : PMap) : Option State :=
  match reorder robots with
  | none => none
  | some rs =>
    match initLoop pm rs with
    | none => none
    | some (rl, pm1) => some {robots := rl, platform_map := pm1, times := 0}

/-! Basic lemmas about the platform dictionary. -/

theorem lookupP_updateP (pm : PMap) (k j : Int) (p0 v : Platform)
    (h : lookupP pm k = some p0) :
    lookupP (updateP pm k v) j = if j = k then some v else lookupP pm j := by
  induction pm with
  | nil => simp [lookupP] at h
  | cons hd tl ih =>
    obtain ⟨k0, q0⟩ := hd
    simp only [lookupP] at h
    by_cases hk : k0 = k
    · subst hk
      simp only [updateP, if_pos rfl, lookupP]
      by_cases hj : k0 = j
      · subst hj
        rw [if_pos rfl, if_pos rfl]
      · have hj2 : ¬ j = k0 := fun hh => hj (hh.symm)
        simp only [if_neg hj, if_neg hj2]
    · rw [if_neg hk] at h
      simp only [updateP, if_neg hk, lookupP]
      by_cases hj : k0 = j
      · subst hj
        have hj2 : ¬ k0 = k := hk
        rw [if_pos rfl, if_neg (fun hh => hj2 hh), if_pos rfl]
      · rw [if_neg hj, if_neg hj, ih h]

/-! Lemmas about the stable index sort. -/

theorem mem_insertStable (key : Nat → Nat) (i j : Nat) (l : List Nat) :
    j ∈ insertStable key i l ↔ j = i ∨ j ∈ l := by
  induction l with
  | nil => simp [insertStable]
  | cons hd tl ih =>
    simp only [insertStable]
    by_cases h : key hd < key i
    · rw [if_pos h]
      simp only [List.mem_cons, ih]
      tauto
    · rw [if_neg h]
      simp only [List.mem_cons]

theorem mem_sortIdx (key : Nat → Nat) (j : Nat) (l : List Nat) :
    j ∈ sortIdx key l ↔ j ∈ l := by
  induction l with
  | nil => simp [sortIdx]
  | cons hd tl ih =>
    simp only [sortIdx, mem_insertStable, ih, List.mem_cons]

theorem insertStable_front (key : Nat → Nat) (i : Nat) (l : List Nat)
    (h : ∀ j ∈ l, ¬ key j < key i) :
    insertStable key i l = i :: l := by
  cases l with
  | nil => rfl
  | cons hd tl =>
    simp only [insertStable, if_neg (h hd (by simp))]

theorem insertStable_append (key : Nat → Nat) (i : Nat) (A B : List Nat)
    (h : ∀ j ∈ A, key j < key i) :
    insertStable key i (A ++ B) = A ++ insertStable key i B := by
  induction A with
  | nil => rfl
  | cons hd tl ih =>
    have hhd : key hd < key i := h hd (by simp)
    rw [List.cons_append, List.cons_append]
    simp only [insertStable, if_pos hhd]
    rw [ih (fun j hj => h j (by simp [hj]))]

/-- A stable sort by a key taking only the values 1, 2, 3 is the
concatenation of the three key classes, each in input order. -/
theorem sortIdx_partition (key : Nat → Nat) (l : List Nat)
    (hk : ∀ i ∈ l, key i = 1 ∨ key i = 2 ∨ key i = 3) :
    sortIdx key l =
      l.filter (fun i => key i == 1) ++ l.filter (fun i => key i == 2) ++
        l.filter (fun i => key i == 3) := by
  induction l with
  | nil => rfl
  | cons hd tl ih =>
    have hhd := hk hd (by simp)
    have htl : ∀ i ∈ tl, key i = 1 ∨ key i = 2 ∨ key i = 3 :=
      fun i hi => hk i (by simp [hi])
    have key_of_mem_filter1 : ∀ j ∈ tl.filter (fun i => key i == 1), key j = 1 := by
      intro j hj
      have := List.of_mem_filter hj
      simpa using this
    have key_of_mem_filter2 : ∀ j ∈ tl.filter (fun i => key i == 2), key j = 2 := by
      intro j hj
      have := List.of_mem_filter hj
      simpa using this
    have key_of_mem_filter3 : ∀ j ∈ tl.filter (fun i => key i == 3), key j = 3 := by
      intro j hj
      have := List.of_mem_filter hj
      simpa using this
    simp only [sortIdx, ih htl]
    rcases hhd with h1 | h2 | h3
    · rw [insertStable_front]
      · simp [List.filter_cons, h1]
      · intro j hj
        simp only [List.append_assoc, List.mem_append] at hj
        rcases hj with hj | hj | hj
        · rw [key_of_mem_filter1 j hj, h1]
          omega
        · rw [key_of_mem_filter2 j hj, h1]
          omega
        · rw [key_of_mem_filter3 j hj, h1]
          omega
    · rw [List.append_assoc, insertStable_append, insertStable_front]
      · simp [List.filter_cons, h2, List.append_assoc]
      · intro j hj
        simp only [List.mem_append] at hj
        rcases hj with hj | hj
        · rw [key_of_mem_filter2 j hj, h2]
          omega
        · rw [key_of_mem_filter3 j hj, h2]
          omega
      · intro j hj
        rw [key_of_mem_filter1 j hj, h2]
        omega
    · rw [List.append_assoc, insertStable_append, insertStable_append,
        insertStable_front]
      · simp [List.filter_cons, h3, List.append_assoc]
      · intro j hj
        rw [key_of_mem_filter3 j hj, h3]
        omega
      · intro j hj
        rw [key_of_mem_filter2 j hj, h3]
        omega
      · intro j hj
        rw [key_of_mem_filter1 j hj, h3]
        omega

theorem stateKey_cases (st : RState) :
    stateKey st = 1 ∨ stateKey st = 2 ∨ stateKey st = 3 := by
  cases st <;> simp [stateKey]

/-! Branch characterizations of the per-robot evaluation. -/

theorem evalRobot_nil (pm : PMap) (r : Robot) (h : r.path = []) :
    evalRobot pm r = some (pm, r) := by
  obtain ⟨i, kd, vel, st, path, tl, ts⟩ := r
  simp only at h
  subst h
  rfl

theorem evalRobot_count_working (pm : PMap) (r : Robot) (pid : Int)
    (rest : List Int) (p : Platform)
    (hp : r.path = pid :: rest) (hs : r.state = RState.working)
    (ht : 0 < r.time_left) (hl : lookupP pm pid = some p) :
    evalRobot pm r =
      some (updateP pm pid {p with time_left := p.time_left - 1},
            {r with time_spend := r.time_spend + 1,
                    time_left := r.time_left - 1}) := by
  obtain ⟨i, kd, vel, st, path, tl, ts⟩ := r
  simp only at hp hs ht
  subst hp
  subst hs
  simp only [evalRobot, if_pos ht, hl]

theorem evalRobot_count_waiting (pm : PMap) (r : Robot) (pid : Int)
    (rest : List Int)
    (hp : r.path = pid :: rest) (hs : r.state = RState.waiting)
    (ht : 0 < r.time_left) :
    evalRobot pm r =
      some (pm, {r with time_spend := r.time_spend + 1,
                        time_left := r.time_left - 1}) := by
  obtain ⟨i, kd, vel, st, path, tl, ts⟩ := r
  simp only at hp hs ht
  subst hp
  subst hs
  simp only [evalRobot, if_pos ht]

theorem evalRobot_count_moving (pm : PMap) (r : Robot) (pid : Int)
    (rest : List Int)
    (hp : r.path = pid :: rest) (hs : r.state = RState.moving)
    (ht : 0 < r.time_left) :
    evalRobot pm r =
      some (pm, {r with time_spend := r.time_spend + 1,
                        time_left := r.time_left - 1}) := by
  obtain ⟨i, kd, vel, st, path, tl, ts⟩ := r
  simp only at hp hs ht
  subst hp
  subst hs
  simp only [evalRobot, if_pos ht]

theorem evalRobot_done_working (pm : PMap) (r : Robot) (pid : Int)
    (rest : List Int) (p : Platform) (x : Int) (vs : List Int)
    (hp : r.path = pid :: rest) (hs : r.state = RState.working)
    (ht : r.time_left ≤ 0) (hl : lookupP pm pid = some p)
    (hv : p.cur_visitor = x :: vs) :
    evalRobot pm r =
      some (updateP pm pid
              (if vs ≠ [] then
                {p with cur_visitor := vs, time_left := p.time_left - 1}
               else
                {p with cur_visitor := [], state := PState.free, time_left := 0}),
            {r with time_spend := r.time_spend + 1, state := RState.moving,
                    time_left := r.velocity - 1, path := rest}) := by
  obtain ⟨i, kd, vel, st, path, tl, ts⟩ := r
  simp only at hp hs ht
  subst hp
  subst hs
  simp only [evalRobot, if_neg (by omega : ¬ ((0:Int) < tl)), hl, hv]

theorem evalRobot_done_waiting (pm : PMap) (r : Robot) (pid : Int)
    (rest : List Int) (p : Platform) (d : Int)
    (hp : r.path = pid :: rest) (hs : r.state = RState.waiting)
    (ht : r.time_left ≤ 0) (hl : lookupP pm pid = some p)
    (ha : r.action p.node_type = some d) :
    evalRobot pm r =
      some (pm, {r with time_spend := r.time_spend + 1,
                        state := RState.working, time_left := d - 1}) := by
  obtain ⟨i, kd, vel, st, path, tl, ts⟩ := r
  simp only at hp hs ht ha
  subst hp
  subst hs
  simp only [evalRobot, if_neg (by omega : ¬ ((0:Int) < tl)), hl]
  simp only [Robot.action] at ha
  simp only [Robot.action, ha]

theorem evalRobot_done_moving_busy (pm : PMap) (r : Robot) (pid : Int)
    (rest : List Int) (p : Platform) (d : Int)
    (hp : r.path = pid :: rest) (hs : r.state = RState.moving)
    (ht : r.time_left ≤ 0) (hl : lookupP pm pid = some p)
    (hb : p.state = PState.busy) (ha : r.action p.node_type = some d) :
    evalRobot pm r =
      some (updateP pm pid
              {p with cur_visitor := p.cur_visitor ++ [r.robot_id],
                      visitor := if p.visitor.getLast? = some r.robot_id then
                                   p.visitor
                                 else p.visitor ++ [r.robot_id],
                      time_left := p.time_left + d},
            {r with time_spend := r.time_spend + 1, state := RState.waiting,
                    time_left := p.time_left}) := by
  obtain ⟨i, kd, vel, st, path, tl, ts⟩ := r
  obtain ⟨qid, nt, pst, ptl, cv, vis⟩ := p
  simp only at hp hs ht ha hb
  subst hp
  subst hs
  subst hb
  simp only [evalRobot, if_neg (by omega : ¬ ((0:Int) < tl)), hl]
  simp only [Robot.action] at ha
  by_cases hlast : vis.getLast? = some i
  · simp only [if_pos hlast, Robot.action, ha]
  · simp only [if_neg hlast, Robot.action, ha]

theorem evalRobot_done_moving_free (pm : PMap) (r : Robot) (pid : Int)
    (rest : List Int) (p : Platform) (d : Int)
    (hp : r.path = pid :: rest) (hs : r.state = RState.moving)
    (ht : r.time_left ≤ 0) (hl : lookupP pm pid = some p)
    (hb : p.state = PState.free) (ha : r.action p.node_type = some d) :
    evalRobot pm r =
      some (updateP pm pid
              {p with cur_visitor := p.cur_visitor ++ [r.robot_id],
                      visitor := if p.visitor.getLast? = some r.robot_id then
                                   p.visitor
                                 else p.visitor ++ [r.robot_id],
                      state := PState.busy, time_left := d - 1},
            {r with time_spend := r.time_spend + 1, state := RState.working,
                    time_left := d - 1}) := by
  obtain ⟨i, kd, vel, st, path, tl, ts⟩ := r
  obtain ⟨qid, nt, pst, ptl, cv, vis⟩ := p
  simp only at hp hs ht ha hb
  subst hp
  subst hs
  subst hb
  simp only [evalRobot, if_neg (by omega : ¬ ((0:Int) < tl)), hl]
  simp only [Robot.action] at ha
  by_cases hlast : vis.getLast? = some i
  · simp only [if_pos hlast, Robot.action, ha]
  · simp only [if_neg hlast, Robot.action, ha]

/-- A robot as produced by the input loader: state 1 (working),
`time_left = 0`, `time_spend = 0`. -/
def rbt (n : Int) (k : Kind) (v : Int) (path : List Int) : Robot :=
  ⟨n, k, v, RState.working, path, 0, 0⟩

/-- A platform as produced by the input loader: state 2 (free),
`time_left = 0`, empty visitor structures. -/
def plt (pid : Int) (nt : String) : Platform :=
  ⟨pid, nt, PState.free, 0, [], []⟩

theorem initLoop_none_of_empty_path (rs : List Robot) :
    ∀ pm : PMap, (∃ r ∈ rs, r.path = []) → initLoop pm rs = none := by
  induction rs with
  | nil => intro pm h; simp at h
  | cons r rest ih =>
    intro pm h
    cases hp : r.path with
    | nil => simp only [initLoop, hp]
    | cons pid tl =>
      have hrest : ∃ x ∈ rest, x.path = [] := by
        rcases h with ⟨x, hx, hxe⟩
        rcases List.mem_cons.mp hx with hx | hx
        · subst hx; rw [hp] at hxe; cases hxe
        · exact ⟨x, hx, hxe⟩
      simp only [initLoop, hp]
      split
      · rfl
      · split
        · rfl
        · rw [ih _ hrest]

/-- C9: Organizer service durations are 30 on node type A and 45 on B;
Mover durations are 20 on A and 35 on B; both raise an invalid-input
error exactly when the node type is neither A nor B (no fallback value). -/
theorem claim_C9_action (nt : String) :
    (organizerAction nt = some 30 ↔ nt = "A") ∧
    (organizerAction nt = some 45 ↔ nt = "B") ∧
    (organizerAction nt = none ↔ ¬(nt = "A" ∨ nt = "B")) ∧
    (moverAction nt = some 20 ↔ nt = "A") ∧
    (moverAction nt = some 35 ↔ nt = "B") ∧
    (moverAction nt = none ↔ ¬(nt = "A" ∨ nt = "B")) := by
  by_cases hA : nt = "A"
  · subst hA
    refine ⟨?_, ?_, ?_, ?_, ?_, ?_⟩ <;> simp [organizerAction, moverAction]
  · by_cases hB : nt = "B"
    · subst hB
      refine ⟨?_, ?_, ?_, ?_, ?_, ?_⟩ <;> simp [organizerAction, moverAction]
    · refine ⟨?_, ?_, ?_, ?_, ?_, ?_⟩ <;>
        simp [organizerAction, moverAction, hA, hB]

/-- C10: construction fails (index error) for fleets of fewer than four
robots; with four or more robots only the first four are kept, reordered
as first, third, second, fourth, so robots past the fourth are never
simulated. -/
theorem claim_C10_reorder :
    (∀ (l : List Robot) (pm : PMap), l.length < 4 → schedulerInit l pm = none) ∧
    (∀ (a b c d : Robot) (rest : List Robot),
        reorder (a :: b :: c :: d :: rest) = some [a, c, b, d]) ∧
    (∀ (a b c d : Robot) (rest : List Robot) (pm : PMap),
        schedulerInit (a :: b :: c :: d :: rest) pm =
          schedulerInit [a, b, c, d] pm) := by
  have pyIndex_none : ∀ (l : List Robot) (n : Nat), l.length ≤ n →
      pyIndex l n = none := by
    intro l
    induction l with
    | nil => intro n _; cases n <;> rfl
    | cons r rest ih =>
      intro n hn
      cases n with
      | zero => simp at hn
      | succ m => exact ih m (by simpa using hn)
  refine ⟨?_, ?_, ?_⟩
  · intro l pm h
    have h3 : pyIndex l 3 = none := pyIndex_none l 3 (by omega)
    simp only [schedulerInit, reorder, h3]
    cases pyIndex l 0 <;> cases pyIndex l 2 <;> cases pyIndex l 1 <;> rfl
  · intro a b c d rest
    rfl
  · intro a b c d rest pm
    rfl

theorem claim_C10_witness :
    schedulerInit [rbt 1 Kind.organizer 5 [1]] [] = none ∧
    reorder [rbt 1 Kind.organizer 5 [1], rbt 2 Kind.mover 1 [2],
             rbt 3 Kind.organizer 2 [3], rbt 4 Kind.mover 3 [4],
             rbt 5 Kind.organizer 4 [5]] =
      some [rbt 1 Kind.organizer 5 [1], rbt 3 Kind.organizer 2 [3],
            rbt 2 Kind.mover 1 [2], rbt 4 Kind.mover 3 [4]] ∧
    schedulerInit [rbt 1 Kind.organizer 5 [1], rbt 2 Kind.mover 1 [2],
                   rbt 3 Kind.organizer 2 [3], rbt 4 Kind.mover 3 [4],
                   rbt 5 Kind.organizer 4 [5]] [] =
      schedulerInit [rbt 1 Kind.organizer 5 [1], rbt 2 Kind.mover 1 [2],
                     rbt 3 Kind.organizer 2 [3], rbt 4 Kind.mover 3 [4]] [] :=
  ⟨claim_C10_reorder.1 _ [] (by simp),
   claim_C10_reorder.2.1 _ _ _ _ _,
   claim_C10_reorder.2.2 _ _ _ _ _ []⟩

/-- C7 counterexample: a scheduled robot with an empty path makes
`RobotScheduler.__init__` raise an index error (modelled by `none`),
contradicting the claim that initialization leaves empty-path robots
unchanged and raises no error. -/
theorem claim_C7_counterexample :
    schedulerInit
      [rbt 1 Kind.organizer 5 [], rbt 2 Kind.organizer 1 [2],
       rbt 3 Kind.organizer 1 [3], rbt 4 Kind.organizer 1 [4]]
      [(2, plt 2 "A"), (3, plt 3 "A"), (4, plt 4 "A")] = none := by
  rfl

/-- C7 (amended): a robot with an empty path is inert during every tick
evaluation — the evaluation returns the robot and the platform map
unchanged — but scheduler initialization fails with an index error
whenever one of the four scheduled robots has an empty path. -/
theorem claim_C7_inert :
    (∀ (pm : PMap) (r : Robot), r.path = [] → evalRobot pm r = some (pm, r)) ∧
    (∀ (robots rs : List Robot) (pm : PMap), reorder robots = some rs →
       (∃ r ∈ rs, r.path = []) → schedulerInit robots pm = none) := by
  constructor
  · exact evalRobot_nil
  · intro robots rs pm hre hex
    simp only [schedulerInit, hre, initLoop_none_of_empty_path rs pm hex]

theorem claim_C7_witness :
    evalRobot [(1, plt 1 "A")] (rbt 9 Kind.mover 3 []) =
      some ([(1, plt 1 "A")], rbt 9 Kind.mover 3 []) ∧
    schedulerInit
      [rbt 1 Kind.organizer 1 [], rbt 2 Kind.organizer 1 [1],
       rbt 3 Kind.organizer 1 [1], rbt 4 Kind.organizer 1 [1]]
      [(1, plt 1 "A")] = none :=
  ⟨claim_C7_inert.1 _ _ rfl,
   claim_C7_inert.2 _ _ _ rfl ⟨rbt 1 Kind.organizer 1 [], by simp [reorder], rfl⟩⟩

/-- C4: a robot with a non-empty path and a strictly positive countdown
just counts down: its own `time_left` drops by exactly 1 and its state and
path are unchanged; the path-front platform's `time_left` also drops by 1
exactly when the robot is Working, while for Waiting and Moving robots the
platform map is untouched. -/
theorem claim_C4_countdown (pm : PMap) (r : Robot) (pid : Int)
    (rest : List Int)
    (hp : r.path = pid :: rest) (ht : 0 < r.time_left) :
    (∀ p, r.state = RState.working → lookupP pm pid = some p →
       ∃ pm1 r1, evalRobot pm r = some (pm1, r1) ∧
         r1.time_left = r.time_left - 1 ∧ r1.state = r.state ∧
         r1.path = r.path ∧ r1.time_spend = r.time_spend + 1 ∧
         (∃ q, lookupP pm1 pid = some q ∧ q.time_left = p.time_left - 1 ∧
            q.state = p.state ∧ q.cur_visitor = p.cur_visitor ∧
            q.visitor = p.visitor) ∧
         (∀ j, j ≠ pid → lookupP pm1 j = lookupP pm j)) ∧
    (r.state ≠ RState.working →
       evalRobot pm r =
         some (pm, {r with time_spend := r.time_spend + 1,
                           time_left := r.time_left - 1})) := by
  constructor
  · intro p hs hl
    refine ⟨_, _, evalRobot_count_working pm r pid rest p hp hs ht hl,
      rfl, rfl, rfl, rfl,
      ⟨{p with time_left := p.time_left - 1}, ?_, rfl, rfl, rfl, rfl⟩, ?_⟩
    · rw [lookupP_updateP pm pid pid p _ hl, if_pos rfl]
    · intro j hj
      rw [lookupP_updateP pm pid j p _ hl, if_neg hj]
  · intro hs
    have hst : r.state = RState.waiting ∨ r.state = RState.moving := by
      cases hq : r.state
      · exact absurd hq hs
      · exact Or.inl rfl
      · exact Or.inr rfl
    rcases hst with hst | hst
    · exact evalRobot_count_waiting pm r pid rest hp hst ht
    · exact evalRobot_count_moving pm r pid rest hp hst ht

theorem claim_C4_witness :
    (∃ pm1 r1, evalRobot [(1, ⟨1, "A", PState.busy, 6, [9], [9]⟩)]
        ⟨9, Kind.mover, 3, RState.working, [1], 4, 10⟩ = some (pm1, r1) ∧
       r1.time_left = 4 - 1 ∧ r1.state = RState.working ∧
       r1.path = [1] ∧ r1.time_spend = 10 + 1 ∧
       (∃ q, lookupP pm1 1 = some q ∧ q.time_left = 6 - 1 ∧
          q.state = PState.busy ∧ q.cur_visitor = [9] ∧ q.visitor = [9]) ∧
       (∀ j, j ≠ 1 → lookupP pm1 j = lookupP [(1, ⟨1, "A", PState.busy, 6, [9], [9]⟩)] j)) ∧
    evalRobot [] ⟨9, Kind.mover, 3, RState.moving, [1], 4, 10⟩ =
      some ([], ⟨9, Kind.mover, 3, RState.moving, [1], 3, 11⟩) :=
  ⟨(claim_C4_countdown [(1, ⟨1, "A", PState.busy, 6, [9], [9]⟩)]
      ⟨9, Kind.mover, 3, RState.working, [1], 4, 10⟩ 1 [] rfl (by decide)).1
      ⟨1, "A", PState.busy, 6, [9], [9]⟩ rfl rfl,
   (claim_C4_countdown [] ⟨9, Kind.mover, 3, RState.moving, [1], 4, 10⟩ 1 []
      rfl (by decide)).2 (by decide)⟩

/-- C3: a robot whose countdown reached 0: if Working, the step pops the
path front and the platform's current-visitor front, the robot starts
Moving with `time_left = velocity - 1`, and the platform loses one second
of `time_left` if visitors remain, else becomes Free with `time_left = 0`;
if Waiting, the robot starts Working with `time_left = duration - 1` and
nothing else changes. -/
theorem claim_C3_depart (pm : PMap) (r : Robot) (pid : Int) (rest : List Int)
    (p : Platform)
    (hp : r.path = pid :: rest) (ht : r.time_left ≤ 0)
    (hl : lookupP pm pid = some p) :
    (∀ x vs, r.state = RState.working → p.cur_visitor = x :: vs →
       ∃ pm1 r1 q, evalRobot pm r = some (pm1, r1) ∧
         r1.path = rest ∧ r1.state = RState.moving ∧
         r1.time_left = r.velocity - 1 ∧ r1.time_spend = r.time_spend + 1 ∧
         lookupP pm1 pid = some q ∧ q.cur_visitor = vs ∧
         (vs ≠ [] → q.state = p.state ∧ q.time_left = p.time_left - 1) ∧
         (vs = [] → q.state = PState.free ∧ q.time_left = 0) ∧
         q.visitor = p.visitor ∧
         (∀ j, j ≠ pid → lookupP pm1 j = lookupP pm j)) ∧
    (∀ d, r.state = RState.waiting → r.action p.node_type = some d →
       evalRobot pm r =
         some (pm, {r with time_spend := r.time_spend + 1,
                           state := RState.working, time_left := d - 1})) := by
  constructor
  · intro x vs hs hv
    refine ⟨_, _,
      (if vs ≠ [] then
        {p with cur_visitor := vs, time_left := p.time_left - 1}
       else
        {p with cur_visitor := [], state := PState.free, time_left := 0}),
      evalRobot_done_working pm r pid rest p x vs hp hs ht hl hv,
      rfl, rfl, rfl, rfl, ?_, ?_, ?_, ?_, ?_, ?_⟩
    · rw [lookupP_updateP pm pid pid p _ hl, if_pos rfl]
    · by_cases hvs : vs = []
      · simp [hvs]
      · simp [hvs]
    · intro hvs
      simp [hvs]
    · intro hvs
      simp [hvs]
    · by_cases hvs : vs = []
      · simp [hvs]
      · simp [hvs]
    · intro j hj
      rw [lookupP_updateP pm pid j p _ hl, if_neg hj]
  · intro d hs ha
    exact evalRobot_done_waiting pm r pid rest p d hp hs ht hl ha

theorem claim_C3_witness :
    (∃ pm1 r1 q, evalRobot [(1, ⟨1, "A", PState.busy, 6, [9, 4], [9, 4]⟩)]
        ⟨9, Kind.mover, 3, RState.working, [1, 2], 0, 10⟩ = some (pm1, r1) ∧
       r1.path = [2] ∧ r1.state = RState.moving ∧
       r1.time_left = 3 - 1 ∧ r1.time_spend = 10 + 1 ∧
       lookupP pm1 1 = some q ∧ q.cur_visitor = [4] ∧
       ([4] ≠ ([] : List Int) → q.state = PState.busy ∧ q.time_left = 6 - 1) ∧
       ([4] = ([] : List Int) → q.state = PState.free ∧ q.time_left = 0) ∧
       q.visitor = [9, 4] ∧
       (∀ j, j ≠ 1 → lookupP pm1 j =
          lookupP [(1, ⟨1, "A", PState.busy, 6, [9, 4], [9, 4]⟩)] j)) ∧
    evalRobot [(1, ⟨1, "A", PState.busy, 6, [9, 4], [9, 4]⟩)]
        ⟨9, Kind.mover, 3, RState.waiting, [1], 0, 10⟩ =
      some ([(1, ⟨1, "A", PState.busy, 6, [9, 4], [9, 4]⟩)],
            ⟨9, Kind.mover, 3, RState.working, [1], 20 - 1, 10 + 1⟩) :=
  ⟨(claim_C3_depart [(1, ⟨1, "A", PState.busy, 6, [9, 4], [9, 4]⟩)]
      ⟨9, Kind.mover, 3, RState.working, [1, 2], 0, 10⟩ 1 [2]
      ⟨1, "A", PState.busy, 6, [9, 4], [9, 4]⟩ rfl (by decide) rfl).1
      9 [4] rfl rfl,
   (claim_C3_depart [(1, ⟨1, "A", PState.busy, 6, [9, 4], [9, 4]⟩)]
      ⟨9, Kind.mover, 3, RState.waiting, [1], 0, 10⟩ 1 []
      ⟨1, "A", PState.busy, 6, [9, 4], [9, 4]⟩ rfl (by decide) rfl).2
      20 rfl rfl⟩

/-- C1: a Moving robot whose countdown reached 0 arrives at the path-front
platform: its id is appended to the back of the current-visitor queue, to
the visitor log exactly when it is not already the last log entry; on a
Busy platform the robot starts Waiting with `time_left` equal to the
platform's current `time_left` and the platform's `time_left` grows by the
robot's service duration; on a Free platform robot and platform both get
`time_left = duration - 1`, the robot Working and the platform Busy. -/
theorem claim_C1_arrival (pm : PMap) (r : Robot) (pid : Int) (rest : List Int)
    (p : Platform) (d : Int)
    (hp : r.path = pid :: rest) (hs : r.state = RState.moving)
    (ht : r.time_left ≤ 0) (hl : lookupP pm pid = some p)
    (ha : r.action p.node_type = some d) :
    ∃ pm1 r1 q, evalRobot pm r = some (pm1, r1) ∧ lookupP pm1 pid = some q ∧
      q.cur_visitor = p.cur_visitor ++ [r.robot_id] ∧
      (q.visitor = if p.visitor.getLast? = some r.robot_id then p.visitor
                   else p.visitor ++ [r.robot_id]) ∧
      (p.state = PState.busy →
         r1.state = RState.waiting ∧ r1.time_left = p.time_left ∧
         q.state = PState.busy ∧ q.time_left = p.time_left + d) ∧
      (p.state = PState.free →
         r1.state = RState.working ∧ r1.time_left = d - 1 ∧
         q.state = PState.busy ∧ q.time_left = d - 1) ∧
      r1.path = r.path ∧ r1.time_spend = r.time_spend + 1 ∧
      (∀ j, j ≠ pid → lookupP pm1 j = lookupP pm j) := by
  cases hb : p.state with
  | busy =>
    refine ⟨_, _,
      {p with cur_visitor := p.cur_visitor ++ [r.robot_id],
              visitor := if p.visitor.getLast? = some r.robot_id then p.visitor
                         else p.visitor ++ [r.robot_id],
              time_left := p.time_left + d},
      evalRobot_done_moving_busy pm r pid rest p d hp hs ht hl hb ha,
      ?_, rfl, rfl, ?_, ?_, hp.symm ▸ rfl, rfl, ?_⟩
    · rw [lookupP_updateP pm pid pid p _ hl, if_pos rfl]
    · intro _
      exact ⟨rfl, rfl, hb, rfl⟩
    · intro hf
      exact PState.noConfusion hf
    · intro j hj
      rw [lookupP_updateP pm pid j p _ hl, if_neg hj]
  | free =>
    refine ⟨_, _,
      {p with cur_visitor := p.cur_visitor ++ [r.robot_id],
              visitor := if p.visitor.getLast? = some r.robot_id then p.visitor
                         else p.visitor ++ [r.robot_id],
              state := PState.busy, time_left := d - 1},
      evalRobot_done_moving_free pm r pid rest p d hp hs ht hl hb ha,
      ?_, rfl, rfl, ?_, ?_, hp.symm ▸ rfl, rfl, ?_⟩
    · rw [lookupP_updateP pm pid pid p _ hl, if_pos rfl]
    · intro hf
      exact PState.noConfusion hf
    · intro _
      exact ⟨rfl, rfl, rfl, rfl⟩
    · intro j hj
      rw [lookupP_updateP pm pid j p _ hl, if_neg hj]

theorem claim_C1_witness :
    ∃ pm1 r1 q, evalRobot [(1, ⟨1, "A", PState.busy, 7, [4], [4]⟩)]
        ⟨9, Kind.mover, 3, RState.moving, [1], 0, 2⟩ = some (pm1, r1) ∧
      lookupP pm1 1 = some q ∧
      q.cur_visitor = [4] ++ [9] ∧
      (q.visitor = if ([4] : List Int).getLast? = some 9 then [4]
                   else [4] ++ [9]) ∧
      (PState.busy = PState.busy →
         r1.state = RState.waiting ∧ r1.time_left = 7 ∧
         q.state = PState.busy ∧ q.time_left = 7 + 20) ∧
      (PState.busy = PState.free →
         r1.state = RState.working ∧ r1.time_left = 20 - 1 ∧
         q.state = PState.busy ∧ q.time_left = 20 - 1) ∧
      r1.path = [1] ∧ r1.time_spend = 2 + 1 ∧
      (∀ j, j ≠ 1 → lookupP pm1 j =
         lookupP [(1, ⟨1, "A", PState.busy, 7, [4], [4]⟩)] j) :=
  claim_C1_arrival [(1, ⟨1, "A", PState.busy, 7, [4], [4]⟩)]
    ⟨9, Kind.mover, 3, RState.moving, [1], 0, 2⟩ 1 []
    ⟨1, "A", PState.busy, 7, [4], [4]⟩ 20 rfl rfl (by decide) rfl rfl

/-! List helpers for the index-addressed robot list. -/

theorem getD_oob (l : List Robot) (i : Nat) (h : l.length ≤ i) :
    l.getD i default = default := by
  induction l generalizing i with
  | nil => cases i <;> rfl
  | cons hd tl ih =>
    cases i with
    | zero => simp at h
    | succ m => exact ih m (by simpa using h)

theorem set_getD_self (l : List Robot) (i : Nat) :
    l.set i (l.getD i default) = l := by
  induction l generalizing i with
  | nil => rfl
  | cons hd tl ih =>
    cases i with
    | zero => rfl
    | succ m => simpa [List.set] using ih m

theorem getD_mem (l : List Robot) (i : Nat) (h : i < l.length) :
    l.getD i default ∈ l := by
  induction l generalizing i with
  | nil => simp at h
  | cons hd tl ih =>
    cases i with
    | zero => simp [List.getD]
    | succ m =>
      have := ih m (by simpa using h)
      simp [List.getD] at this ⊢
      exact Or.inr this

theorem mem_getD (l : List Robot) (r : Robot) (h : r ∈ l) :
    ∃ i, i < l.length ∧ l.getD i default = r := by
  induction l with
  | nil => simp at h
  | cons hd tl ih =>
    rcases List.mem_cons.mp h with h | h
    · exact ⟨0, by simp, h.symm⟩
    · obtain ⟨i, hi, he⟩ := ih h
      exact ⟨i + 1, by simpa using hi, he⟩

/-! The termination measure: a lexicographic triple of natural numbers
over the robot list.  `mP` is the total remaining path length, `mM` counts
Moving robots, `mN` weighs the countdowns (with extra weight 91 on
Waiting, which dominates twice any service duration). -/

def fP (r : Robot) : Nat := r.path.length

def fM (r : Robot) : Nat := if r.state = RState.moving then 1 else 0

def fN (r : Robot) : Nat :=
  if r.path = [] then 0
  else 2 * r.time_left.toNat + (if r.state = RState.waiting then 91 else 0)

def sumf (f : Robot → Nat) : List Robot → Nat
  | [] => 0
  | r :: rs => f r + sumf f rs

def fTriple (r : Robot) : Nat × Nat × Nat := (fP r, fM r, fN r)

def muOf (l : List Robot) : Nat × Nat × Nat := (sumf fP l, sumf fM l, sumf fN l)

/-- Strict lexicographic order on measure triples. -/
def ltMu (a b : Nat × Nat × Nat) : Prop :=
  a.1 < b.1 ∨ (a.1 = b.1 ∧ (a.2.1 < b.2.1 ∨ (a.2.1 = b.2.1 ∧ a.2.2 < b.2.2)))

/-- Reflexive closure of `ltMu`. -/
def leMu (a b : Nat × Nat × Nat) : Prop := a = b ∨ ltMu a b

theorem leMu_refl (a : Nat × Nat × Nat) : leMu a a := Or.inl rfl

theorem ltMu_leMu (a b : Nat × Nat × Nat) (h : ltMu a b) : leMu a b := Or.inr h

theorem ltMu_of_le_of_lt (a b c : Nat × Nat × Nat)
    (h1 : leMu a b) (h2 : ltMu b c) : ltMu a c := by
  obtain ⟨a1, a2, a3⟩ := a
  obtain ⟨b1, b2, b3⟩ := b
  obtain ⟨c1, c2, c3⟩ := c
  simp only [leMu, ltMu, Prod.mk.injEq] at h1 h2 ⊢
  rcases h1 with ⟨rfl, rfl, rfl⟩ | h1
  · exact h2
  · omega

theorem ltMu_of_lt_of_le (a b c : Nat × Nat × Nat)
    (h1 : ltMu a b) (h2 : leMu b c) : ltMu a c := by
  obtain ⟨a1, a2, a3⟩ := a
  obtain ⟨b1, b2, b3⟩ := b
  obtain ⟨c1, c2, c3⟩ := c
  simp only [leMu, ltMu, Prod.mk.injEq] at h1 h2 ⊢
  rcases h2 with ⟨rfl, rfl, rfl⟩ | h2
  · exact h1
  · omega

theorem leMu_trans (a b c : Nat × Nat × Nat)
    (h1 : leMu a b) (h2 : leMu b c) : leMu a c := by
  rcases h1 with rfl | h1
  · exact h2
  · exact Or.inr (ltMu_of_lt_of_le a b c h1 h2)

theorem sumf_set (f : Robot → Nat) (l : List Robot) (i : Nat) (x : Robot)
    (h : i < l.length) :
    sumf f (l.set i x) + f (l.getD i default) = sumf f l + f x := by
  induction l generalizing i with
  | nil => simp at h
  | cons hd tl ih =>
    cases i with
    | zero =>
      simp only [List.set, sumf, List.getD_cons_zero]
      omega
    | succ m =>
      have hm : m < tl.length := by simpa using h
      have := ih m hm
      simp only [List.set, sumf, List.getD_cons_succ] at this ⊢
      omega

theorem mu_set_lt (l : List Robot) (i : Nat) (x : Robot)
    (hlen : i < l.length)
    (h : ltMu (fTriple x) (fTriple (l.getD i default))) :
    ltMu (muOf (l.set i x)) (muOf l) := by
  have hP := sumf_set fP l i x hlen
  have hM := sumf_set fM l i x hlen
  have hN := sumf_set fN l i x hlen
  simp only [fTriple, ltMu, muOf] at h ⊢
  omega

/-- The values returned by a successful `action` call. -/
theorem action_values (r : Robot) (nt : String) (d : Int)
    (h : r.action nt = some d) : d = 30 ∨ d = 45 ∨ d = 20 ∨ d = 35 := by
  simp only [Robot.action] at h
  cases hk : r.kind <;> rw [hk] at h
  · simp only [organizerAction] at h
    split at h
    · exact Or.inl (Option.some.inj h).symm
    · split at h
      · exact Or.inr (Or.inl (Option.some.inj h).symm)
      · exact Option.noConfusion h
  · simp only [moverAction] at h
    split at h
    · exact Or.inr (Or.inr (Or.inl (Option.some.inj h).symm))
    · split at h
      · exact Or.inr (Or.inr (Or.inr (Option.some.inj h).symm))
      · exact Option.noConfusion h

/-- One robot evaluation: an empty-path robot is untouched, and an active
robot strictly decreases its own measure triple lexicographically. -/
theorem evalRobot_triple (pm : PMap) (r : Robot) (pm1 : PMap) (r1 : Robot)
    (h : evalRobot pm r = some (pm1, r1)) :
    (r.path = [] → r1 = r ∧ pm1 = pm) ∧
    (r.path ≠ [] → ltMu (fTriple r1) (fTriple r)) := by
  obtain ⟨i, kd, vel, st, path, tl, ts⟩ := r
  cases path with
  | nil =>
    refine ⟨fun _ => ?_, fun hne => absurd rfl hne⟩
    simp only [evalRobot] at h
    obtain ⟨h1, h2⟩ := Prod.mk.injEq .. ▸ Option.some.inj h
    exact ⟨h2.symm, h1.symm⟩
  | cons pid rest =>
    refine ⟨fun hc => List.noConfusion hc, fun _ => ?_⟩
    simp only [evalRobot] at h
    split at h
    · -- time_left > 0: pure countdown
      rename_i htl
      split at h
      · -- Working
        split at h
        · exact Option.noConfusion h
        · obtain ⟨h1, h2⟩ := Prod.mk.injEq .. ▸ Option.some.inj h
          subst h2
          simp [fTriple, fP, fM, fN, ltMu] <;> omega
      · -- Waiting
        obtain ⟨h1, h2⟩ := Prod.mk.injEq .. ▸ Option.some.inj h
        subst h2
        simp [fTriple, fP, fM, fN, ltMu] <;> omega
      · -- Moving
        obtain ⟨h1, h2⟩ := Prod.mk.injEq .. ▸ Option.some.inj h
        subst h2
        simp [fTriple, fP, fM, fN, ltMu] <;> omega
    · -- time_left ≤ 0: transition
      rename_i htl
      split at h
      · -- Working: pop path and queue front
        split at h
        · exact Option.noConfusion h
        · split at h
          · exact Option.noConfusion h
          · obtain ⟨h1, h2⟩ := Prod.mk.injEq .. ▸ Option.some.inj h
            subst h2
            simp [fTriple, fP, fM, fN, ltMu] <;> omega
      · -- Waiting: start service
        split at h
        · exact Option.noConfusion h
        · split at h
          · exact Option.noConfusion h
          · rename_i p hlk d hac
            have hd := action_values _ _ _ hac
            obtain ⟨h1, h2⟩ := Prod.mk.injEq .. ▸ Option.some.inj h
            subst h2
            simp [fTriple, fP, fM, fN, ltMu] <;> omega
      · -- Moving: arrival
        split at h
        · exact Option.noConfusion h
        · split at h
          · -- platform busy
            split at h
            · exact Option.noConfusion h
            · obtain ⟨h1, h2⟩ := Prod.mk.injEq .. ▸ Option.some.inj h
              subst h2
              simp [fTriple, fP, fM, fN, ltMu] <;> omega
          · -- platform free
            split at h
            · exact Option.noConfusion h
            · obtain ⟨h1, h2⟩ := Prod.mk.injEq .. ▸ Option.some.inj h
              subst h2
              simp [fTriple, fP, fM, fN, ltMu] <;> omega

/-! Pass-level lemmas. -/

theorem passGo_skip (order : List Nat) :
    ∀ (robots : List Robot) (pm : PMap) (flag : Bool),
      (∀ i ∈ order, (robots.getD i default).path = []) →
      passGo robots pm flag order = some (robots, pm, flag) := by
  induction order with
  | nil => intro robots pm flag _; rfl
  | cons i rest ih =>
    intro robots pm flag h
    have hi := h i (List.mem_cons_self i rest)
    simp only [passGo, evalRobot_nil pm _ hi, hi]
    rw [set_getD_self]
    have hrec := ih robots pm flag (fun j hj => h j (List.mem_cons_of_mem i hj))
    simpa using hrec

theorem passGo_true_mono (order : List Nat) :
    ∀ (robots : List Robot) (pm : PMap) (res : List Robot × PMap × Bool),
      passGo robots pm true order = some res → res.2.2 = true := by
  induction order with
  | nil =>
    intro robots pm res h
    cases h
    rfl
  | cons i rest ih =>
    intro robots pm res h
    simp only [passGo] at h
    split at h
    · exact Option.noConfusion h
    · rw [Bool.true_or] at h
      exact ih _ _ _ h

theorem passGo_le (order : List Nat) :
    ∀ (robots : List Robot) (pm : PMap) (flag : Bool)
      (res : List Robot × PMap × Bool),
      passGo robots pm flag order = some res →
      leMu (muOf res.1) (muOf robots) := by
  induction order with
  | nil =>
    intro robots pm flag res h
    cases h
    exact leMu_refl _
  | cons i rest ih =>
    intro robots pm flag res h
    simp only [passGo] at h
    split at h
    · exact Option.noConfusion h
    · rename_i pm1 r1 heq
      have htr := evalRobot_triple _ _ _ _ heq
      by_cases hp : (robots.getD i default).path = []
      · obtain ⟨hr, hpm⟩ := htr.1 hp
        subst hr
        rw [set_getD_self] at h
        exact ih _ _ _ _ h
      · have hlt := htr.2 hp
        have hlen : i < robots.length := by
          by_contra hge
          exact hp (by rw [getD_oob robots i (by omega)]; rfl)
        have hmu := mu_set_lt robots i r1 hlen hlt
        have hle := ih _ _ _ _ h
        exact leMu_trans _ _ _ hle (ltMu_leMu _ _ hmu)

theorem passGo_lt (order : List Nat) :
    ∀ (robots : List Robot) (pm : PMap) (res : List Robot × PMap × Bool),
      passGo robots pm false order = some res → res.2.2 = true →
      ltMu (muOf res.1) (muOf robots) := by
  induction order with
  | nil =>
    intro robots pm res h hf
    cases h
    exact Bool.noConfusion hf
  | cons i rest ih =>
    intro robots pm res h hf
    simp only [passGo] at h
    split at h
    · exact Option.noConfusion h
    · rename_i pm1 r1 heq
      have htr := evalRobot_triple _ _ _ _ heq
      by_cases hp : (robots.getD i default).path = []
      · obtain ⟨hr, hpm⟩ := htr.1 hp
        subst hr
        subst hpm
        rw [set_getD_self] at h
        have hfl : (false || decide ((robots.getD i default).path ≠ [])) = false := by
          simp only [hp]
          decide
        rw [hfl] at h
        exact ih _ _ _ h hf
      · have hlt := htr.2 hp
        have hlen : i < robots.length := by
          by_contra hge
          exact hp (by rw [getD_oob robots i (by omega)]; rfl)
        have hmu := mu_set_lt robots i r1 hlen hlt
        have hle := passGo_le rest _ _ _ _ h
        exact ltMu_of_le_of_lt _ _ _ hle hmu

theorem passGo_false (order : List Nat) :
    ∀ (robots : List Robot) (pm : PMap) (res : List Robot × PMap × Bool),
      passGo robots pm false order = some res → res.2.2 = false →
      (∀ i ∈ order, (robots.getD i default).path = []) ∧
        res.1 = robots ∧ res.2.1 = pm := by
  induction order with
  | nil =>
    intro robots pm res h hf
    cases h
    exact ⟨by simp, rfl, rfl⟩
  | cons i rest ih =>
    intro robots pm res h hf
    simp only [passGo] at h
    split at h
    · exact Option.noConfusion h
    · rename_i pm1 r1 heq
      by_cases hp : (robots.getD i default).path = []
      · obtain ⟨hr, hpm⟩ := (evalRobot_triple _ _ _ _ heq).1 hp
        subst hr
        subst hpm
        rw [set_getD_self] at h
        have hfl : (false || decide ((robots.getD i default).path ≠ [])) = false := by
          simp only [hp]
          decide
        rw [hfl] at h
        obtain ⟨hall, h1, h2⟩ := ih _ _ _ h hf
        refine ⟨fun j hj => ?_, h1, h2⟩
        rcases List.mem_cons.mp hj with rfl | hj
        · exact hp
        · exact hall j hj
      · have hfl : (false || decide ((robots.getD i default).path ≠ [])) = true := by
          simp only [ne_eq, hp, decide_not]
          decide
        rw [hfl] at h
        have := passGo_true_mono rest _ _ _ h
        rw [this] at hf
        exact Bool.noConfusion hf

/-- Everything the tick loop guarantees about one successful iteration:
the counter is incremented before the pass, the final `flag` is true
exactly when some robot still had a non-empty path at the start of the
pass, a flagless pass changes nothing, and a flagged pass strictly
decreases the termination measure. -/
theorem tick_char (s s1 : State) (f : Bool) (h : tick s = some (s1, f)) :
    s1.times = s.times + 1 ∧
    (f = true ↔ ∃ r ∈ s.robots, r.path ≠ []) ∧
    (f = false → s1.robots = s.robots ∧ s1.platform_map = s.platform_map) ∧
    (f = true → ltMu (muOf s1.robots) (muOf s.robots)) := by
  simp only [tick] at h
  split at h
  · exact Option.noConfusion h
  · rename_i rl pmx flag heq
    obtain ⟨h1, h2⟩ := Prod.mk.injEq .. ▸ Option.some.inj h
    subst h2
    subst h1
    refine ⟨rfl, ?_, ?_, ?_⟩
    · constructor
      · intro hf
        by_contra hno
        push_neg at hno
        have hall : ∀ i ∈ sortIdx (robotKey s.robots) (List.range s.robots.length),
            (s.robots.getD i default).path = [] := by
          intro i hi
          have hmem : i ∈ List.range s.robots.length := (mem_sortIdx _ _ _).mp hi
          exact hno _ (getD_mem s.robots i (List.mem_range.mp hmem))
        rw [passGo_skip _ _ _ _ hall] at heq
        obtain ⟨hq1, hq2⟩ := Prod.mk.injEq .. ▸ Option.some.inj heq
        obtain ⟨hq3, hq4⟩ := Prod.mk.injEq .. ▸ hq2
        rw [← hq4] at hf
        exact Bool.noConfusion hf
      · rintro ⟨r, hr, hne⟩
        cases hfl : flag
        · exfalso
          rw [hfl] at heq
          obtain ⟨hall, _, _⟩ := passGo_false _ _ _ _ heq rfl
          obtain ⟨i, hilen, hieq⟩ := mem_getD s.robots r hr
          have hio : i ∈ sortIdx (robotKey s.robots) (List.range s.robots.length) :=
            (mem_sortIdx _ _ _).mpr (List.mem_range.mpr hilen)
          have hemp := hall i hio
          rw [hieq] at hemp
          exact hne hemp
        · rfl
    · intro hf
      rw [hf] at heq
      obtain ⟨_, hq1, hq2⟩ := passGo_false _ _ _ _ heq rfl
      exact ⟨hq1, hq2⟩
    · intro hf
      rw [hf] at heq
      exact passGo_lt _ _ _ _ heq rfl

/-! Loop-level lemmas. -/

theorem runFuel_stable (n m : Nat) :
    ∀ s : State, runFuel n s ≠ RunRes.fuel →
      runFuel (n + m) s = runFuel n s := by
  induction n with
  | zero => intro s h; exact absurd rfl h
  | succ k ih =>
    intro s h
    have harith : k + 1 + m = (k + m) + 1 := by omega
    rw [harith]
    simp only [runFuel] at h ⊢
    cases htk : tick s with
    | none => rfl
    | some pr =>
      obtain ⟨s1, flag⟩ := pr
      cases flag with
      | false => rfl
      | true =>
        rw [htk] at h
        have h2 : runFuel k s1 ≠ RunRes.fuel := by simpa using h
        simpa using ih s1 h2

/-- Every state halts: the scheduler loop cannot run forever. -/
theorem runFuel_halts : ∀ (a b c : Nat) (s : State),
    muOf s.robots = (a, b, c) → ∃ n, runFuel (n + 1) s ≠ RunRes.fuel := by
  intro a
  induction a using Nat.strong_induction_on with
  | _ a ihA =>
    intro b
    induction b using Nat.strong_induction_on with
    | _ b ihB =>
      intro c
      induction c using Nat.strong_induction_on with
      | _ c ihC =>
        intro s hmu
        cases htk : tick s with
        | none =>
          refine ⟨0, ?_⟩
          simp [runFuel, htk]
        | some pr =>
          obtain ⟨s1, flag⟩ := pr
          cases flag with
          | false =>
            refine ⟨0, ?_⟩
            simp [runFuel, htk]
          | true =>
            have hlt := (tick_char s s1 true htk).2.2.2 rfl
            rw [hmu] at hlt
            simp only [ltMu] at hlt
            have step : ∀ n : Nat, runFuel (n + 1) s1 ≠ RunRes.fuel →
                runFuel (n + 1 + 1) s ≠ RunRes.fuel := by
              intro n hn
              simpa [runFuel, htk] using hn
            rcases hlt with hl | ⟨he1, hl | ⟨he2, hl⟩⟩
            · obtain ⟨n, hn⟩ := ihA (muOf s1.robots).1 (by omega) (muOf s1.robots).2.1
                (muOf s1.robots).2.2 s1 rfl
              exact ⟨n + 1, step n hn⟩
            · obtain ⟨n, hn⟩ := ihB (muOf s1.robots).2.1 (by omega)
                (muOf s1.robots).2.2 s1 (by rw [← he1])
              exact ⟨n + 1, step n hn⟩
            · obtain ⟨n, hn⟩ := ihC (muOf s1.robots).2.2 (by omega) s1
                (by rw [← he1, ← he2])
              exact ⟨n + 1, step n hn⟩

/-- C5 (amended): the tick loop terminates for every input state — with
enough fuel the outcome is stable and is never fuel-exhaustion; the loop
increments the tick counter before each per-robot pass; the pass's `flag`
is true exactly when some robot's path was non-empty at the start of that
pass, so the loop halts the first time a full pass finds every robot's
path already empty, and that final pass leaves robots and platforms
untouched.  (The quantitative bound of the original claim is refuted by
the counterexample.) -/
theorem claim_C5_termination :
    (∀ s : State, ∃ n, runFuel (n + 1) s ≠ RunRes.fuel ∧
       ∀ m, runFuel (n + 1 + m) s = runFuel (n + 1) s) ∧
    (∀ (s s1 : State) (f : Bool), tick s = some (s1, f) →
       s1.times = s.times + 1 ∧
       (f = true ↔ ∃ r ∈ s.robots, r.path ≠ []) ∧
       (f = false → s1.robots = s.robots ∧ s1.platform_map = s.platform_map)) := by
  constructor
  · intro s
    obtain ⟨n, hn⟩ := runFuel_halts (muOf s.robots).1 (muOf s.robots).2.1
      (muOf s.robots).2.2 s rfl
    exact ⟨n, hn, fun m => runFuel_stable (n + 1) m s hn⟩
  · intro s s1 f h
    obtain ⟨h1, h2, h3, _⟩ := tick_char s s1 f h
    exact ⟨h1, h2, h3⟩

/-- A one-robot state used to instantiate the termination theorem. -/
def wS : State :=
  ⟨[⟨1, Kind.organizer, 2, RState.working, [1], 3, 0⟩],
   [(1, ⟨1, "A", PState.busy, 5, [1], [1]⟩)], 0⟩

/-- The state after one tick of `wS`. -/
def wS1 : State :=
  ⟨[⟨1, Kind.organizer, 2, RState.working, [1], 2, 1⟩],
   [(1, ⟨1, "A", PState.busy, 4, [1], [1]⟩)], 1⟩

theorem claim_C5_witness :
    (∃ n, runFuel (n + 1) wS ≠ RunRes.fuel ∧
       ∀ m, runFuel (n + 1 + m) wS = runFuel (n + 1) wS) ∧
    (wS1.times = wS.times + 1 ∧
     (true = true ↔ ∃ r ∈ wS.robots, r.path ≠ []) ∧
     (true = false → wS1.robots = wS.robots ∧ wS1.platform_map = wS.platform_map)) :=
  ⟨claim_C5_termination.1 wS, claim_C5_termination.2 wS wS1 true rfl⟩

/-- The C5 bound counterexample input: an Organizer of velocity 45 visiting
four type-B platforms (duration 45) plus three one-platform robots; the
total path length is 7 and every duration and velocity is at most 45. -/
def c5input : List Robot :=
  [rbt 1 Kind.organizer 45 [1, 2, 3, 4], rbt 2 Kind.organizer 1 [5],
   rbt 3 Kind.organizer 1 [6], rbt 4 Kind.organizer 1 [7]]

def c5pm : PMap :=
  [(1, plt 1 "B"), (2, plt 2 "B"), (3, plt 3 "B"), (4, plt 4 "B"),
   (5, plt 5 "B"), (6, plt 6 "B"), (7, plt 7 "B")]

def c5s0 : State := (schedulerInit c5input c5pm).getD ⟨[], [], 0⟩

/-- Project the final state out of a completed run. -/
def outStateD (res : RunRes) : State :=
  match res with
  | RunRes.out s => s
  | _ => ⟨[], [], 0⟩

def c5fin : State := outStateD (runFuel 400 c5s0)

set_option maxRecDepth 1000000 in
/-- C5 counterexample: this run executes 317 ticks, but the claimed bound
is sum(path lengths) * max(service durations, velocities) = 7 * 45 = 315;
the loop therefore does not halt within the claimed number of ticks. -/
theorem claim_C5_counterexample :
    schedulerInit c5input c5pm = some c5s0 ∧
    runFuel 400 c5s0 = RunRes.out c5fin ∧
    c5fin.times = 317 ∧
    (c5input.map (fun r => r.path.length)).sum = 7 ∧
    ¬ (c5fin.times ≤ 7 * 45) := by
  refine ⟨by decide, by decide, by decide, by decide, by decide⟩

/-! Visitor-log monotonicity. -/

theorem lookup_update_prefix (pm : PMap) (k : Int) (p0 pnew : Platform)
    (hlk : lookupP pm k = some p0) (hvis : p0.visitor <+: pnew.visitor)
    (pid : Int) (p : Platform) (hl : lookupP pm pid = some p) :
    ∃ q, lookupP (updateP pm k pnew) pid = some q ∧ p.visitor <+: q.visitor := by
  rw [lookupP_updateP pm k pid p0 pnew hlk]
  by_cases hpp : pid = k
  · subst hpp
    rw [if_pos rfl]
    have hp0 : p = p0 := Option.some.inj (hl.symm.trans hlk)
    subst hp0
    exact ⟨pnew, rfl, hvis⟩
  · rw [if_neg hpp]
    exact ⟨p, hl, List.prefix_refl _⟩

/-- One robot evaluation only ever appends to a platform's visitor log. -/
theorem evalRobot_prefix (pm : PMap) (r : Robot) (pm1 : PMap) (r1 : Robot)
    (h : evalRobot pm r = some (pm1, r1)) (pid : Int) (p : Platform)
    (hl : lookupP pm pid = some p) :
    ∃ q, lookupP pm1 pid = some q ∧ p.visitor <+: q.visitor := by
  obtain ⟨i, kd, vel, st, path, tl, ts⟩ := r
  cases path with
  | nil =>
    simp only [evalRobot] at h
    obtain ⟨h1, h2⟩ := Prod.mk.injEq .. ▸ Option.some.inj h
    subst h1
    exact ⟨p, hl, List.prefix_refl _⟩
  | cons pid0 rest =>
    simp only [evalRobot] at h
    split at h
    · split at h
      · -- counting down while Working
        split at h
        · exact Option.noConfusion h
        · rename_i p0 hlk
          obtain ⟨h1, h2⟩ := Prod.mk.injEq .. ▸ Option.some.inj h
          subst h1
          exact lookup_update_prefix pm pid0 p0
            {p0 with time_left := p0.time_left - 1} hlk (List.prefix_refl _)
            pid p hl
      · obtain ⟨h1, h2⟩ := Prod.mk.injEq .. ▸ Option.some.inj h
        subst h1
        exact ⟨p, hl, List.prefix_refl _⟩
      · obtain ⟨h1, h2⟩ := Prod.mk.injEq .. ▸ Option.some.inj h
        subst h1
        exact ⟨p, hl, List.prefix_refl _⟩
    · split at h
      · -- Working transition
        split at h
        · exact Option.noConfusion h
        · rename_i p0 hlk
          split at h
          · exact Option.noConfusion h
          · obtain ⟨h1, h2⟩ := Prod.mk.injEq .. ▸ Option.some.inj h
            subst h1
            refine lookup_update_prefix pm pid0 p0 _ hlk ?_ pid p hl
            split
            · exact List.prefix_refl _
            · exact List.prefix_refl _
      · -- Waiting transition
        split at h
        · exact Option.noConfusion h
        · split at h
          · exact Option.noConfusion h
          · obtain ⟨h1, h2⟩ := Prod.mk.injEq .. ▸ Option.some.inj h
            subst h1
            exact ⟨p, hl, List.prefix_refl _⟩
      · -- Moving arrival
        split at h
        · exact Option.noConfusion h
        · rename_i p0 hlk
          split at h
          · split at h
            · exact Option.noConfusion h
            · obtain ⟨h1, h2⟩ := Prod.mk.injEq .. ▸ Option.some.inj h
              subst h1
              refine lookup_update_prefix pm pid0 p0 _ hlk ?_ pid p hl
              split
              · exact List.prefix_refl _
              · exact List.prefix_append _ _
          · split at h
            · exact Option.noConfusion h
            · obtain ⟨h1, h2⟩ := Prod.mk.injEq .. ▸ Option.some.inj h
              subst h1
              refine lookup_update_prefix pm pid0 p0 _ hlk ?_ pid p hl
              split
              · exact List.prefix_refl _
              · exact List.prefix_append _ _

theorem passGo_prefix (order : List Nat) :
    ∀ (robots : List Robot) (pm : PMap) (flag : Bool)
      (res : List Robot × PMap × Bool),
      passGo robots pm flag order = some res →
      ∀ (pid : Int) (p : Platform), lookupP pm pid = some p →
        ∃ q, lookupP res.2.1 pid = some q ∧ p.visitor <+: q.visitor := by
  induction order with
  | nil =>
    intro robots pm flag res h pid p hl
    cases h
    exact ⟨p, hl, List.prefix_refl _⟩
  | cons i rest ih =>
    intro robots pm flag res h pid p hl
    simp only [passGo] at h
    split at h
    · exact Option.noConfusion h
    · rename_i pm1 r1 heq
      obtain ⟨q1, hq1, hpre1⟩ := evalRobot_prefix pm _ pm1 r1 heq pid p hl
      obtain ⟨q2, hq2, hpre2⟩ := ih _ _ _ _ h pid q1 hq1
      exact ⟨q2, hq2, hpre1.trans hpre2⟩

/-- C8 (amended): across any tick, each platform's visitor log only grows:
the log before the tick is a prefix of the log after it (so it is
append-only and its length never decreases).  The original claim's other
half — that `cur_visitors` holds each robot id at most once — is refuted
by the counterexample. -/
theorem claim_C8_log_prefix (s s1 : State) (f : Bool) (pid : Int)
    (p q : Platform) (h : tick s = some (s1, f))
    (hl : lookupP s.platform_map pid = some p)
    (hl1 : lookupP s1.platform_map pid = some q) :
    p.visitor <+: q.visitor := by
  simp only [tick] at h
  split at h
  · exact Option.noConfusion h
  · rename_i rl pmx flag heq
    obtain ⟨h1, h2⟩ := Prod.mk.injEq .. ▸ Option.some.inj h
    subst h1
    obtain ⟨q2, hq2, hpre⟩ := passGo_prefix _ _ _ _ _ heq pid p hl
    have hq : q2 = q := Option.some.inj (hq2.symm.trans hl1)
    exact hq ▸ hpre

theorem claim_C8_witness :
    (⟨1, "A", PState.busy, 5, [1], [1]⟩ : Platform).visitor <+:
      (⟨1, "A", PState.busy, 4, [1], [1]⟩ : Platform).visitor :=
  claim_C8_log_prefix wS wS1 true 1 ⟨1, "A", PState.busy, 5, [1], [1]⟩
    ⟨1, "A", PState.busy, 4, [1], [1]⟩ rfl rfl rfl

/-- The C8 duplicate-id counterexample input: an Organizer (duration 45)
and a Mover (duration 35) both start on platform 1 of type B, so
initialization overwrites the platform countdown with 35 and both robots
are simultaneously Working; the Mover's path is [1, 1], so after finishing
early (popping the Organizer's id off the queue front) it immediately
returns while its own id is still queued. -/
def c8input : List Robot :=
  [rbt 1 Kind.organizer 1 [1], rbt 2 Kind.organizer 1 [2],
   rbt 5 Kind.mover 1 [1, 1], rbt 3 Kind.organizer 1 [3]]

def c8pm : PMap := [(1, plt 1 "B"), (2, plt 2 "B"), (3, plt 3 "B")]

def c8s0 : State := (schedulerInit c8input c8pm).getD ⟨[], [], 0⟩

def c8s37 : State := (tickN 37 c8s0).getD ⟨[], [], 0⟩

/-- The current-visitor queue of a platform of a state. -/
def curVisAt (s : State) (pid : Int) : List Int :=
  match lookupP s.platform_map pid with
  | some p => p.cur_visitor
  | none => []

set_option maxRecDepth 1000000 in
/-- C8 counterexample: in the reachable state after 37 ticks, robot id 5
appears twice in platform 1's current-visitor queue. -/
theorem claim_C8_counterexample :
    schedulerInit c8input c8pm = some c8s0 ∧
    tickN 37 c8s0 = some c8s37 ∧
    curVisAt c8s37 1 = [5, 5] ∧
    ¬ ((curVisAt c8s37 1).count 5 ≤ 1) := by
  refine ⟨by decide, by decide, by decide, by decide⟩

/-! The C6 scenario. -/

/-- The robot of the C6 scenario: an Organizer of velocity 5 with path
[P1, P2] where P1 has node type A and P2 node type B. -/
def c6robot : Robot := rbt 1 Kind.organizer 5 [1, 2]

/-- The C6 scenario fleet: since `RobotScheduler.__init__` rejects fleets
of fewer than four robots, the scenario robot is accompanied by three
robots on disjoint one-platform paths that never interact with it. -/
def c6input : List Robot :=
  [c6robot, rbt 2 Kind.organizer 1 [3], rbt 3 Kind.organizer 1 [4],
   rbt 4 Kind.organizer 1 [5]]

def c6pm : PMap :=
  [(1, plt 1 "A"), (2, plt 2 "B"), (3, plt 3 "A"), (4, plt 4 "A"),
   (5, plt 5 "A")]

def c6s0 : State := (schedulerInit c6input c6pm).getD ⟨[], [], 0⟩

def c6fin : State := outStateD (runFuel 200 c6s0)

set_option maxRecDepth 1000000 in
/-- C6 counterexample: the one-robot run of the scenario cannot even be
constructed (`__init__` raises an index error), and with three disjoint
helper robots added the scenario robot's final `time_spend` is 81, not
80. -/
theorem claim_C6_counterexample :
    schedulerInit [c6robot] c6pm = none ∧
    schedulerInit c6input c6pm = some c6s0 ∧
    runFuel 200 c6s0 = RunRes.out c6fin ∧
    (c6fin.robots.getD 0 default).robot_id = 1 ∧
    (c6fin.robots.getD 0 default).time_spend = 81 ∧
    ¬ ((c6fin.robots.getD 0 default).time_spend = 80) := by
  refine ⟨by decide, by decide, by decide, by decide, by decide, by decide⟩

/-- The list of states reached while ticking `n` times from `s`. -/
def tickTrace : Nat → State → List State
  | 0, s => [s]
  | n + 1, s =>
    s :: (match tick s with
          | none => []
          | some (s1, _) => tickTrace n s1)

set_option maxRecDepth 1000000 in
/-- C6 (amended): the scenario robot (run together with three disjoint
helpers, since construction needs four robots) is Working at P1 at the
start of ticks 1–31 (initialization grants the full duration 30, and the
transition tick is also spent at the platform), Moving during ticks 32–36,
Working at P2 during ticks 37–81, and inert afterwards; its final
`time_spend` is 81 and the loop runs 82 ticks. -/
theorem claim_C6_scenario :
    schedulerInit [c6robot] c6pm = none ∧
    schedulerInit c6input c6pm = some c6s0 ∧
    (tickTrace 81 c6s0).length = 82 ∧
    (((tickTrace 81 c6s0).take 31).all fun s =>
       decide ((s.robots.getD 0 default).state = RState.working ∧
               (s.robots.getD 0 default).path.head? = some 1)) = true ∧
    ((((tickTrace 81 c6s0).drop 31).take 5).all fun s =>
       decide ((s.robots.getD 0 default).state = RState.moving)) = true ∧
    ((((tickTrace 81 c6s0).drop 36).take 45).all fun s =>
       decide ((s.robots.getD 0 default).state = RState.working ∧
               (s.robots.getD 0 default).path.head? = some 2)) = true ∧
    (((tickTrace 81 c6s0).getD 81 ⟨[], [], 0⟩).robots.getD 0 default).path = [] ∧
    (((tickTrace 81 c6s0).getD 81 ⟨[], [], 0⟩).robots.getD 0 default).time_spend = 81 ∧
    runFuel 200 c6s0 = RunRes.out c6fin ∧
    (c6fin.robots.getD 0 default).time_spend = 81 ∧
    c6fin.times = 82 := by
  refine ⟨by decide, by decide, by decide, by decide, by decide, by decide,
    by decide, by decide, by decide, by decide, by decide⟩

/-! The C2 intra-tick ordering. -/

/-- A state demonstrating same-tick visibility: robot 10 finishes Working
at platform 1 and robot 11 is Moving onto platform 1 in the same tick. -/
def c2demo : State :=
  ⟨[⟨10, Kind.organizer, 5, RState.working, [1], 0, 3⟩,
    ⟨11, Kind.organizer, 5, RState.moving, [1], 0, 3⟩],
   [(1, ⟨1, "A", PState.busy, 0, [10], [10]⟩)], 0⟩

/-- The state after one tick of `c2demo`. -/
def c2demo1 : State := ((tick c2demo).getD (⟨[], [], 0⟩, false)).1

/-- C2: the per-tick evaluation order is exactly: robots Working at the
start of the pass, in list order, then Waiting robots in list order, then
Moving robots in list order (a stable sort by state).  Consequently (the
concrete part) a platform freed by a Working robot is claimed by a Moving
robot that arrives later in the same tick: in `c2demo`, robot 10 frees
platform 1 and robot 11 immediately becomes Working there. -/
theorem claim_C2_order :
    (∀ s : State,
       sortIdx (robotKey s.robots) (List.range s.robots.length) =
         ((List.range s.robots.length).filter
            (fun i => (s.robots.getD i default).state == RState.working)) ++
         ((List.range s.robots.length).filter
            (fun i => (s.robots.getD i default).state == RState.waiting)) ++
         ((List.range s.robots.length).filter
            (fun i => (s.robots.getD i default).state == RState.moving))) ∧
    (tick c2demo = some (c2demo1, true) ∧
     (c2demo1.robots.getD 0 default).state = RState.moving ∧
     (c2demo1.robots.getD 1 default).state = RState.working ∧
     curVisAt c2demo1 1 = [11]) := by
  constructor
  · intro s
    rw [sortIdx_partition (robotKey s.robots) _ (fun i _ => stateKey_cases _)]
    have h1 : ∀ i ∈ List.range s.robots.length,
        (robotKey s.robots i == 1) =
          ((s.robots.getD i default).state == RState.working) := by
      intro i _
      simp only [robotKey]
      cases (s.robots.getD i default).state <;> rfl
    have h2 : ∀ i ∈ List.range s.robots.length,
        (robotKey s.robots i == 2) =
          ((s.robots.getD i default).state == RState.waiting) := by
      intro i _
      simp only [robotKey]
      cases (s.robots.getD i default).state <;> rfl
    have h3 : ∀ i ∈ List.range s.robots.length,
        (robotKey s.robots i == 3) =
          ((s.robots.getD i default).state == RState.moving) := by
      intro i _
      simp only [robotKey]
      cases (s.robots.getD i default).state <;> rfl
    rw [List.filter_congr h1, List.filter_congr h2, List.filter_congr h3]
  · refine ⟨by decide, by decide, by decide, by decide⟩

end RobotSim
